import Mathlib

/-!
Verification development for the mlviz Interactive Decision-Tree Modeling
Engine (src/backend).  The Python sources are shallowly embedded:

* Python floats are modelled as exact rationals (`ℚ`); none of the
  properties treated here depends on binary floating-point rounding.
* `np.log2` (a float transcendental) is threaded through as an abstract
  parameter `log2 : ℚ → ℚ`; the claims about entropy only exercise the
  empty-input branch, which never evaluates it.
* numpy index arrays (sample masks, declared `List[int]` in the request
  models) are modelled as `List Nat`; out-of-range fancy indexing is an
  `IndexError`, modelled with `Except`.  `np.array` applied to the EMPTY
  request list infers dtype float64, and numpy fancy indexing with a
  float-dtype index array raises `IndexError` even when it is empty; the
  model carries this dtype fact for the two service entry points that
  build their index array from the request mask.
* fallible Python code (raised exceptions) is modelled with
  `Except String`; the error strings name the Python exception raised.
* Python dicts keep insertion order; they are modelled as association
  lists where assignment to a present key updates in place and a fresh
  key is appended at the end.
-/

/-! ## Generic list / numpy helpers -/

/-- Sum of a list of rationals (`np.sum` / built-in `sum`). -/
def sumQ (l : List ℚ) : ℚ := l.foldr (· + ·) 0

/-- Minimum of a nonempty list (`ndarray.min()`); 0 on the empty list,
which the sources never reach because of their emptiness guards. -/
def minQ (l : List ℚ) : ℚ :=
  match l with
  | [] => 0
  | h :: t => t.foldl min h

/-- Maximum of a nonempty list (`ndarray.max()`); 0 on the empty list. -/
def maxQ (l : List ℚ) : ℚ :=
  match l with
  | [] => 0
  | h :: t => t.foldl max h

/-- Insert into a sorted list, keeping duplicates (insertion-sort step). -/
def insortQ (x : ℚ) : List ℚ → List ℚ
  | [] => [x]
  | y :: ys => if x ≤ y then x :: y :: ys else y :: insortQ x ys

/-- Ascending sort with duplicates (what `np.percentile` does internally). -/
def sortQ (l : List ℚ) : List ℚ := l.foldr insortQ []

/-- Sorted distinct values, ascending: `np.unique` and
`sorted(list(set(xs)))` for rational data. -/
def sortedUniqueQ (l : List ℚ) : List ℚ := sortQ l.dedup

/-- Insert into a sorted list of naturals, keeping duplicates. -/
def insortNat (x : Nat) : List Nat → List Nat
  | [] => [x]
  | y :: ys => if x ≤ y then x :: y :: ys else y :: insortNat x ys

/-- `np.unique` on integer labels: sorted distinct values, ascending. -/
def sortedUniqueNat (l : List Nat) : List Nat := l.dedup.foldr insortNat []

/-- Boolean-mask selection `xs[fv <= t]` for parallel lists `xs`, `fv`:
keeps the entries of `xs` whose companion value is `<= t`.  This is the
left-hand side of every split in the repository (trained-tree converter
and manual statistics engine). -/
def boolMaskLe {α : Type} (xs : List α) (fv : List ℚ) (t : ℚ) : List α :=
  ((xs.zip fv).filter (fun p => decide (p.2 ≤ t))).map (·.1)

/-- Boolean-mask selection `xs[~(fv <= t)]`: the right-hand side of every
split. -/
def boolMaskGt {α : Type} (xs : List α) (fv : List ℚ) (t : ℚ) : List α :=
  ((xs.zip fv).filter (fun p => !decide (p.2 ≤ t))).map (·.1)

/-- Row selection `xs[indices]` (numpy fancy indexing with an integer
index array); an out-of-range index raises `IndexError`. -/
def npTake {α : Type} (xs : List α) (idxs : List Nat) : Except String (List α) :=
  idxs.mapM (fun i =>
    match xs.get? i with
    | some v => Except.ok v
    | none => Except.error "IndexError: index out of bounds")

/-- Column selection `rows[:, j]`; a too-short row raises `IndexError`. -/
def npColumn (rows : List (List ℚ)) (j : Nat) : Except String (List ℚ) :=
  rows.mapM (fun r =>
    match r.get? j with
    | some v => Except.ok v
    | none => Except.error "IndexError: column index out of bounds")

/-- `X[sample_indices, feature_idx]` :  fancy row selection followed by a
column read. -/
def npFancyCol (X : List (List ℚ)) (idxs : List Nat) (j : Nat) :
    Except String (List ℚ) := do
  let rows ← npTake X idxs
  npColumn rows j

/-- `np.linspace a b m` with `endpoint=True` (the only use in the sources). -/
def npLinspace (a b : ℚ) (m : Nat) : List ℚ :=
  if m = 0 then []
  else if m = 1 then [a]
  else (List.range m).map (fun j => a + (b - a) * j / (m - 1))

/-- Linear-interpolation percentile of an ascending list (`np.percentile`
with the default interpolation), `q` in `[0, 100]`. -/
def npPercentileSorted (a : List ℚ) (q : ℚ) : ℚ :=
  let n := a.length
  let p := q * ((n : ℚ) - 1) / 100
  let i := p.floor.toNat
  if i + 1 < n then
    a.getD i 0 + (p - (i : ℚ)) * (a.getD (i + 1) 0 - a.getD i 0)
  else a.getD (n - 1) 0

/-- `np.percentile` sorts its input before interpolating. -/
def npPercentile (l : List ℚ) (q : ℚ) : ℚ := npPercentileSorted (sortQ l) q

/-- `np.histogram values bins`: per-bin counts; every bin is
half-open `[edge_i, edge_{i+1})` except the last, which is closed. -/
def npHistogram (values : List ℚ) (bins : List ℚ) : List Nat :=
  let k := bins.length - 1
  (List.range k).map (fun i =>
    (values.filter (fun v =>
      decide (bins.getD i 0 ≤ v) &&
        (if i + 1 = k then decide (v ≤ bins.getD (i + 1) 0)
         else decide (v < bins.getD (i + 1) 0)))).length)

/-- First index of the maximal element (`np.argmax` /
`max(range(n), key=...)`: ties broken by first occurrence); 0 on `[]`. -/
def argmaxAux : List ℚ → Nat → Nat → ℚ → Nat
  | [], _, bi, _ => bi
  | x :: xs, i, bi, bv =>
      if bv < x then argmaxAux xs (i + 1) i x else argmaxAux xs (i + 1) bi bv

/-- First index attaining the maximum of a list of rationals. -/
def argmaxIdx : List ℚ → Nat
  | [] => 0
  | x :: xs => argmaxAux xs 1 0 x

/-! ## Domain model (src/backend/models/decision_tree.py, util.py) -/

/-- `HistogramData` (models/util.py). -/
structure HistogramData where
  feature_values : List ℚ
  class_labels : List Nat
  bins : List ℚ
  counts_by_class : List (String × List Nat)
  threshold : Option ℚ
  total_samples : Nat
deriving DecidableEq, Repr

/-- `NodeStatistics` (models/decision_tree.py). -/
structure NodeStatistics where
  samples : Nat
  impurity : ℚ
  class_distribution : List (String × Nat)
  class_probabilities : List (String × ℚ)
deriving DecidableEq, Repr

/-- `SplitStatistics` (models/decision_tree.py). -/
structure SplitStatistics where
  parent_stats : NodeStatistics
  left_stats : NodeStatistics
  right_stats : NodeStatistics
  information_gain : ℚ
  weighted_impurity : ℚ
deriving DecidableEq, Repr

/-- `ThresholdStatistics` (models/decision_tree.py). -/
structure ThresholdStatistics where
  threshold : ℚ
  information_gain : ℚ
  split_stats : SplitStatistics
  left_samples_mask : List Nat
  right_samples_mask : List Nat
deriving DecidableEq, Repr

/-- `TreeNode = Union[SplitNode, LeafNode]` (models/decision_tree.py):
the tagged leaf/split variant.  The frontend-only optional fields
`samples_mask` and `terminal` are never read by the backend and are
omitted. -/
inductive TreeNode where
  | leaf (samples : Nat) (impurity : ℚ) (value : List (List ℚ)) : TreeNode
  | split (samples : Nat) (impurity : ℚ) (value : List (List ℚ))
      (feature : String) (feature_index : Option Nat) (threshold : ℚ)
      (histogram_data : Option HistogramData)
      (left : TreeNode) (right : TreeNode) : TreeNode
deriving DecidableEq, Repr

/-! ## Node statistics calculator
(src/backend/services/manual_tree_service.py) -/

/-- `ManualTreeService._calculate_gini`: `1 - Σ p_c²` over observed class
proportions; `0.0` on the empty label list. -/
def calcGini (labels : List Nat) : ℚ :=
  if labels.isEmpty then 0
  else
    let n : ℚ := labels.length
    1 - sumQ (labels.dedup.map (fun c => ((labels.count c : ℚ) / n) * ((labels.count c : ℚ) / n)))

/-- `ManualTreeService._calculate_entropy`: `-Σ p log2 p` over observed
class proportions, skipping zero proportions; `0.0` on the empty label
list.  `np.log2` is an abstract parameter (float transcendental). -/
def calcEntropy (log2 : ℚ → ℚ) (labels : List Nat) : ℚ :=
  if labels.isEmpty then 0
  else
    let n : ℚ := labels.length
    let ps := (labels.dedup.map (fun c => (labels.count c : ℚ) / n)).filter
        (fun p => decide (0 < p))
    Neg.neg (sumQ (ps.map (fun p => p * log2 p)))

/-- `ManualTreeService._calculate_impurity`: dispatch on the criterion
string, defaulting to gini. -/
def calcImpurity (log2 : ℚ → ℚ) (criterion : String) (labels : List Nat) : ℚ :=
  if criterion = "entropy" then calcEntropy log2 labels else calcGini labels

/-- `ManualTreeService._get_class_distribution`: dense per-class counts
and probabilities over the declared class names; `({}, {})` on the empty
label list. -/
def getClassDistribution (labels : List Nat) (classNames : List String) :
    List (String × Nat) × List (String × ℚ) :=
  if labels.isEmpty then ([], [])
  else
    let total : ℚ := labels.length
    (classNames.enum.map (fun p => (p.2, labels.count p.1)),
     classNames.enum.map (fun p => (p.2, (labels.count p.1 : ℚ) / total)))

/-- `ManualTreeService._create_node_statistics`. -/
def createNodeStatistics (log2 : ℚ → ℚ) (labels : List Nat)
    (classNames : List String) (criterion : String) : NodeStatistics :=
  let dist := getClassDistribution labels classNames
  { samples := labels.length
    impurity := calcImpurity log2 criterion labels
    class_distribution := dist.1
    class_probabilities := dist.2 }

/-- Left split of the node's sample indices:
`samples_mask[feature_values <= threshold]`.  This single routine is the
sample-set partition used verbatim by the trained-tree converter
(`_convert_tree_to_node`) and by the manual statistics engine
(`calculate_node_statistics` / `calculate_feature_statistics`). -/
def leftSampleIndices (mask : List Nat) (fv : List ℚ) (t : ℚ) : List Nat :=
  boolMaskLe mask fv t

/-- Right split of the node's sample indices:
`samples_mask[~(feature_values <= threshold)]`. -/
def rightSampleIndices (mask : List Nat) (fv : List ℚ) (t : ℚ) : List Nat :=
  boolMaskGt mask fv t

/-- Boolean-mask selection `X_values[y_labels == class_label]`. -/
def boolMaskEqNat (xs : List ℚ) (labels : List Nat) (c : Nat) : List ℚ :=
  ((xs.zip labels).filter (fun p => p.2 == c)).map (·.1)

/-- `ManualTreeService._create_histogram_data`.  On a node with at least
two distinct feature values the Python body evaluates the undefined name
`thresholds` (the parameter is the scalar `threshold`) and raises
`NameError`; only the empty and the constant-valued branches return. -/
def createHistogramData (xValues : List ℚ) (yLabels : List Nat)
    (threshold : ℚ) (featureIdx : Nat) (numBins : Nat := 10) :
    Except String HistogramData :=
  if xValues.isEmpty then
    Except.ok
      { feature_values := [], class_labels := [], bins := [],
        counts_by_class := [], threshold := some threshold, total_samples := 0 }
  else
    let mn := minQ xValues
    let mx := maxQ xValues
    if mn = mx then
      let bins := [mn - 1/10, mn + 1/10]
      Except.ok
        { feature_values := xValues
          class_labels := yLabels
          bins := bins
          counts_by_class :=
            (sortedUniqueNat yLabels).map (fun c =>
              (toString c, npHistogram (boolMaskEqNat xValues yLabels c) bins))
          threshold := some threshold
          total_samples := xValues.length }
    else Except.error "NameError: name thresholds is not defined"

/-! ## Manual split statistics engine
(src/backend/services/manual_tree_service.py) -/

/-- `ManualNodeStatsResponse` (api/models.py), without the echoed
`available_features` / `class_names` metadata lists. -/
structure ManualNodeStatsResponse where
  feature : String
  feature_index : Nat
  threshold : ℚ
  split_stats : SplitStatistics
  histogram_data : HistogramData
  left_samples_mask : List Nat
  right_samples_mask : List Nat
deriving DecidableEq, Repr

/-- `ManualFeatureStatsResponse` (api/models.py), without the echoed
metadata lists. -/
structure ManualFeatureStatsResponse where
  feature : String
  feature_index : Nat
  thresholds : List ThresholdStatistics
  best_threshold : ℚ
  best_threshold_index : Nat
  feature_range : List ℚ
  histogram_data : HistogramData
  total_unique_values : Nat
  returned_threshold_count : Nat
deriving DecidableEq, Repr

/-- Weighted impurity and information gain of a split, as computed inline
in both `calculate_node_statistics` and `calculate_feature_statistics`
(the unguarded branch; `calculate_node_statistics` guards `n_samples = 0`
separately). -/
def weightedGain (parentImp leftImp rightImp : ℚ) (nLeft nRight nSamples : Nat) : ℚ × ℚ :=
  let w := ((nLeft : ℚ) / (nSamples : ℚ)) * leftImp +
    ((nRight : ℚ) / (nSamples : ℚ)) * rightImp
  (w, parentImp - w)

/-- Whether the `samples_mask` index array of a request has float64 dtype:
the root path `np.arange(len(X))` is integer-typed, while
`np.array(request.parent_samples_mask)` on the EMPTY list infers float64
— and numpy fancy indexing with a float-dtype index array raises
`IndexError: arrays used as indices must be of integer (or boolean) type`,
even for an empty array. -/
def maskIsFloatDtype (parentMask : Option (List Nat)) : Bool :=
  match parentMask with
  | none => false
  | some l => l.isEmpty

/-- `ManualTreeService.calculate_node_statistics`, for an already resolved
dataset `(X, y, featureNames, classNames)`.  Raises (`Except.error`) where
the Python raises: unknown feature name, the `IndexError` of fancy
indexing with the float64-dtype empty mask array (line 203) or with
out-of-range mask indices, and the `NameError` inherited from
`_create_histogram_data` on non-constant feature values. -/
def calculate_node_statistics (log2 : ℚ → ℚ) (X : List (List ℚ)) (y : List Nat)
    (featureNames classNames : List String) (feature : String) (threshold : ℚ)
    (parentMask : Option (List Nat)) (criterion : String) :
    Except String ManualNodeStatsResponse := do
  let fidx ← match featureNames.findIdx? (· == feature) with
    | some i => Except.ok i
    | none => Except.error ("Feature " ++ feature ++ " not found in dataset")
  let mask := parentMask.getD (List.range X.length)
  let xNode ← if maskIsFloatDtype parentMask then
      Except.error "IndexError: arrays used as indices must be of integer (or boolean) type"
    else npTake X mask
  let yNode ← npTake y mask
  let parentStats := createNodeStatistics log2 yNode classNames criterion
  let featureValues ← npColumn xNode fidx
  let leftMask := leftSampleIndices mask featureValues threshold
  let rightMask := rightSampleIndices mask featureValues threshold
  let yLeft := boolMaskLe yNode featureValues threshold
  let yRight := boolMaskGt yNode featureValues threshold
  let leftStats := createNodeStatistics log2 yLeft classNames criterion
  let rightStats := createNodeStatistics log2 yRight classNames criterion
  let nSamples := yNode.length
  let wg :=
    if nSamples = 0 then ((0 : ℚ), (0 : ℚ))
    else weightedGain parentStats.impurity leftStats.impurity rightStats.impurity
      yLeft.length yRight.length nSamples
  let hist ← createHistogramData featureValues yNode threshold fidx
  Except.ok
    { feature := feature
      feature_index := fidx
      threshold := threshold
      split_stats :=
        { parent_stats := parentStats, left_stats := leftStats,
          right_stats := rightStats, information_gain := wg.2,
          weighted_impurity := wg.1 }
      histogram_data := hist
      left_samples_mask := leftMask
      right_samples_mask := rightMask }

/-- Candidate split points of a feature: midpoints between consecutive
sorted unique values (`calculate_feature_statistics`, lines 307-310). -/
def midpointsOf : List ℚ → List ℚ
  | a :: b :: rest => (a + b) / 2 :: midpointsOf (b :: rest)
  | _ => []

/-- The candidate thresholds of a feature at a node: midpoints of the
sorted unique feature values. -/
def splitPointsOf (featureValues : List ℚ) : List ℚ :=
  midpointsOf (sortedUniqueQ featureValues)

/-- The threshold cap of `calculate_feature_statistics` (lines 312-318):
if there are more candidates than `max_thresholds`, keep the
`max_thresholds` evenly spaced percentiles (0-100 inclusive) of the
candidate list, deduplicated and sorted. -/
def cappedSplitPoints (splitPoints : List ℚ) (maxThresholds : Nat) : List ℚ :=
  if maxThresholds < splitPoints.length then
    sortedUniqueQ ((npLinspace 0 100 maxThresholds).map (npPercentile splitPoints))
  else splitPoints

/-- Per-threshold statistics of `calculate_feature_statistics`
(lines 320-363): one `ThresholdStatistics` per retained threshold, against
the same parent sample set. -/
def thresholdSweep (log2 : ℚ → ℚ) (classNames : List String) (criterion : String)
    (parentStats : NodeStatistics) (mask : List Nat) (yNode : List Nat)
    (featureValues : List ℚ) (points : List ℚ) : List ThresholdStatistics :=
  points.map (fun thr =>
    let leftMask := leftSampleIndices mask featureValues thr
    let rightMask := rightSampleIndices mask featureValues thr
    let yLeft := boolMaskLe yNode featureValues thr
    let yRight := boolMaskGt yNode featureValues thr
    let leftStats := createNodeStatistics log2 yLeft classNames criterion
    let rightStats := createNodeStatistics log2 yRight classNames criterion
    let wg := weightedGain parentStats.impurity leftStats.impurity
      rightStats.impurity yLeft.length yRight.length yNode.length
    { threshold := thr
      information_gain := wg.2
      split_stats :=
        { parent_stats := parentStats, left_stats := leftStats,
          right_stats := rightStats, information_gain := wg.2,
          weighted_impurity := wg.1 }
      left_samples_mask := leftMask
      right_samples_mask := rightMask })

/-- `best_idx` of `calculate_feature_statistics` (lines 365-367):
`max(range(n), key=information_gain)`, ties broken by first occurrence. -/
def bestIdxOf (stats : List ThresholdStatistics) : Nat :=
  argmaxIdx (stats.map (·.information_gain))

/-- `ManualTreeService.calculate_feature_statistics`, for an already
resolved dataset.  Raises where the Python raises: unknown feature, the
`IndexError` of fancy indexing with the float64-dtype empty mask array
(line 291) or with out-of-range mask indices, fewer than two unique
values, and the `NameError` inherited from `_create_histogram_data`
(reached whenever the feature has at least two unique values, i.e. on
every splittable call). -/
def calculate_feature_statistics (log2 : ℚ → ℚ) (X : List (List ℚ)) (y : List Nat)
    (featureNames classNames : List String) (feature : String)
    (parentMask : Option (List Nat)) (criterion : String) (maxThresholds : Nat) :
    Except String ManualFeatureStatsResponse := do
  let fidx ← match featureNames.findIdx? (· == feature) with
    | some i => Except.ok i
    | none => Except.error ("Feature " ++ feature ++ " not found in dataset")
  let mask := parentMask.getD (List.range X.length)
  let xNode ← if maskIsFloatDtype parentMask then
      Except.error "IndexError: arrays used as indices must be of integer (or boolean) type"
    else npTake X mask
  let yNode ← npTake y mask
  let featureValues ← npColumn xNode fidx
  let parentStats := createNodeStatistics log2 yNode classNames criterion
  let uniqueValues := sortedUniqueQ featureValues
  let totalUnique := uniqueValues.length
  if uniqueValues.length < 2 then
    Except.error ("Feature " ++ feature ++ " has only one unique value, cannot split")
  else
    let splitPoints := cappedSplitPoints (midpointsOf uniqueValues) maxThresholds
    let statsList := thresholdSweep log2 classNames criterion parentStats mask
      yNode featureValues splitPoints
    let bestIdx := bestIdxOf statsList
    let bestThreshold := ((statsList.get? bestIdx).map (·.threshold)).getD 0
    let hist ← createHistogramData featureValues yNode bestThreshold fidx statsList.length
    Except.ok
      { feature := feature
        feature_index := fidx
        thresholds := statsList
        best_threshold := bestThreshold
        best_threshold_index := bestIdx
        feature_range := [minQ featureValues, maxQ featureValues]
        histogram_data := hist
        total_unique_values := totalUnique
        returned_threshold_count := statsList.length }

/-! ## Trained-tree converter
(src/backend/services/decision_tree_service.py) -/

/-- The flat array-based trained tree handed over by the external
`TreeTrainer` (sklearn `model.tree_`): per node id, the child pointers
(equal means leaf), feature index, threshold, sample count, impurity and
per-class value matrix.  The arrays are modelled as total functions on
node ids. -/
structure SkTree where
  children_left : Nat → Int
  children_right : Nat → Int
  feature : Nat → Nat
  threshold : Nat → ℚ
  n_node_samples : Nat → Nat
  impurity : Nat → ℚ
  value : Nat → List (List ℚ)

/-- `feature_names[feature_idx] if feature_names else f"feature_{feature_idx}"`
(decision_tree_service.py line 104): a non-empty list that is too short
raises `IndexError`. -/
def resolveFeatureName (featureNames : List String) (fidx : Nat) :
    Except String String :=
  if featureNames.isEmpty then Except.ok ("feature_" ++ toString fidx)
  else
    match featureNames.get? fidx with
    | some n => Except.ok n
    | none => Except.error "IndexError: list index out of range"

/-- `DecisionTreeService._create_histogram_data`: histogram over the
samples reaching a node; `None` when the sample set is empty, otherwise
`min(10, n)` equal-width bins (or a 2-edge degenerate histogram when the
feature is constant), with one count vector per class of the full
dataset. -/
def createHistogramDataDT (sampleIndices : List Nat) (featureIdx : Nat)
    (X : List (List ℚ)) (y : List Nat) (threshold : Option ℚ) :
    Except String (Option HistogramData) :=
  if sampleIndices.isEmpty then Except.ok none
  else do
    let featureValues ← npFancyCol X sampleIndices featureIdx
    let classLabels ← npTake y sampleIndices
    let mn := minQ featureValues
    let mx := maxQ featureValues
    let bins :=
      if mn = mx then [mn - 1/10, mn + 1/10]
      else npLinspace mn mx (min 10 sampleIndices.length + 1)
    Except.ok (some
      { feature_values := featureValues
        class_labels := classLabels
        bins := bins
        counts_by_class :=
          (sortedUniqueNat y).map (fun c =>
            (toString c, npHistogram (boolMaskEqNat featureValues classLabels c) bins))
        threshold := threshold
        total_samples := sampleIndices.length })

/-- `DecisionTreeService._convert_tree_to_node`: recursive, root first;
a node with equal child pointers becomes a `Leaf`; otherwise the current
node's sample set is partitioned by `value <= threshold` into the index
subsets handed to the children.  The Python recursion is modelled with
explicit fuel (sklearn child ids strictly increase, so any fuel larger
than the node count suffices); exhausted fuel is Python's
`RecursionError`. -/
def convertTreeToNode (t : SkTree) (featureNames : List String)
    (X : List (List ℚ)) (y : List Nat) :
    Nat → Nat → Option (List Nat) → Except String TreeNode
  | 0, _, _ => Except.error "RecursionError: maximum recursion depth exceeded"
  | fuel + 1, nodeId, sampleIndices =>
    let sidx := sampleIndices.getD (List.range X.length)
    if t.children_left nodeId = t.children_right nodeId then
      Except.ok (TreeNode.leaf (t.n_node_samples nodeId) (t.impurity nodeId)
        (t.value nodeId))
    else
      let fidx := t.feature nodeId
      match resolveFeatureName featureNames fidx with
      | Except.error e => Except.error e
      | Except.ok fname =>
        let thr := t.threshold nodeId
        match createHistogramDataDT sidx fidx X y (some thr) with
        | Except.error e => Except.error e
        | Except.ok hist =>
          match npFancyCol X sidx fidx with
          | Except.error e => Except.error e
          | Except.ok featureValues =>
            let leftIndices := leftSampleIndices sidx featureValues thr
            let rightIndices := rightSampleIndices sidx featureValues thr
            match convertTreeToNode t featureNames X y fuel
                (t.children_left nodeId).toNat (some leftIndices) with
            | Except.error e => Except.error e
            | Except.ok leftNode =>
              match convertTreeToNode t featureNames X y fuel
                  (t.children_right nodeId).toNat (some rightIndices) with
              | Except.error e => Except.error e
              | Except.ok rightNode =>
                Except.ok (TreeNode.split (t.n_node_samples nodeId)
                  (t.impurity nodeId) (t.value nodeId) fname (some fidx) thr
                  hist leftNode rightNode)

/-! ## Generic tree predictor
(src/backend/services/decision_tree_service.py, `_predict_with_tree`) -/

/-- One-sample traversal of `DecisionTreeService._predict_with_tree`:
while the node is a split, resolve the feature index by name
(`feature_names.index`, `ValueError` when absent), read the sample's
value there (`IndexError` when the row is too short) and descend left on
`value <= threshold`; at a leaf, return `np.argmax(node.value[0])`. -/
def predictOneWithTree (featureNames : List String) :
    TreeNode → List ℚ → Except String Nat
  | TreeNode.leaf _ _ value, _ =>
    match value.head? with
    | none => Except.error "IndexError: list index out of range"
    | some probs =>
      if probs.isEmpty then
        Except.error "ValueError: attempt to get argmax of an empty sequence"
      else Except.ok (argmaxIdx probs)
  | TreeNode.split _ _ _ fname _ thr _ l r, sample =>
    match featureNames.findIdx? (· == fname) with
    | none => Except.error ("ValueError: " ++ fname ++ " is not in list")
    | some fidx =>
      match sample.get? fidx with
      | none => Except.error "IndexError: index out of bounds"
      | some v =>
        if v ≤ thr then predictOneWithTree featureNames l sample
        else predictOneWithTree featureNames r sample

/-- `DecisionTreeService._predict_with_tree`: one prediction per row. -/
def predictWithTree (tree : TreeNode) (X : List (List ℚ))
    (featureNames : List String) : Except String (List Nat) :=
  X.mapM (predictOneWithTree featureNames tree)

/-! ## Model cache (src/backend/services/model_cache.py) -/

/-- A cached training payload.  The payload is the `train_model` response
dict; the two keys the cache layer itself touches are modelled as fields
(`cached`, set by `train_model`, and `cached_at`, stamped by `set`), the
remaining keys are an opaque `rest`. -/
structure CachePayload (R : Type) where
  cached : Bool
  cachedAt : Option Nat
  rest : R
deriving DecidableEq, Repr

/-- `ModelCacheService` state: the insertion-ordered cache dict plus the
`max_size` / `enabled` settings. -/
structure ModelCacheService (R : Type) where
  cache : List (String × CachePayload R)
  maxSize : Nat
  enabled : Bool
deriving DecidableEq, Repr

/-- Python dict assignment `d[k] = v`: update in place when the key is
present (keeping its position in insertion order), append otherwise. -/
def dictAssign {R : Type} (d : List (String × CachePayload R)) (k : String)
    (v : CachePayload R) : List (String × CachePayload R) :=
  if d.any (fun e => e.1 == k) then
    d.map (fun e => if e.1 == k then (k, v) else e)
  else d ++ [(k, v)]

/-- `ModelCacheService.get`: `None` when disabled, else `dict.get`. -/
def cacheGet {R : Type} (s : ModelCacheService R) (key : String) :
    Option (CachePayload R) :=
  if s.enabled then (s.cache.find? (fun e => e.1 == key)).map (·.2) else none

/-- `ModelCacheService.set`: a no-op when disabled; otherwise, when
already at capacity, delete the first key in insertion order
(`next(iter(dict))` — `StopIteration` on an empty dict, reachable only
with `max_size = 0`), then stamp the payload with the insertion time and
assign it. -/
def cacheSet {R : Type} (s : ModelCacheService R) (key : String)
    (data : CachePayload R) (now : Nat) :
    Except String (ModelCacheService R) :=
  if s.enabled then
    match (if s.maxSize ≤ s.cache.length then s.cache.tail? else some s.cache) with
    | none => Except.error "StopIteration"
    | some remaining =>
      let stamped := { data with cachedAt := some now }
      Except.ok { s with cache := dictAssign remaining key stamped }
  else Except.ok s

/-- `ModelCacheService.clear`. -/
def cacheClear {R : Type} (s : ModelCacheService R) : ModelCacheService R :=
  { s with cache := [] }

/-- A sequence of `set` calls (key, payload, insertion time). -/
def cacheSetAll {R : Type} (s : ModelCacheService R)
    (items : List (String × CachePayload R × Nat)) :
    Except String (ModelCacheService R) :=
  items.foldlM (fun st it => cacheSet st it.1 it.2.1 it.2.2) s

/-- The entry `set` actually stores for an `(key, payload, now)` item. -/
def stampItem {R : Type} (it : String × CachePayload R × Nat) :
    String × CachePayload R :=
  (it.1, { it.2.1 with cachedAt := some it.2.2 })

/-- The cache-hit branch of `DecisionTreeService.train_model`
(decision_tree_service.py lines 204-206): on a hit the returned dict is
the very object stored in the cache, and `cached_result["cached"] = True`
writes through that alias, so the stored entry's `cached` field changes
in place.  `None` models falling through to the training path on a
miss. -/
def trainModelCacheHit {R : Type} (s : ModelCacheService R) (key : String) :
    Option (ModelCacheService R × CachePayload R) :=
  match cacheGet s key with
  | none => none
  | some p =>
    let mutated := { p with cached := true }
    let newCache := s.cache.map (fun e => if e.1 == key then (key, mutated) else e)
    some ({ s with cache := newCache }, mutated)

/-! ## Prediction with traversal instructions (the `/predict` endpoint)

The route `api/decision_tree.py::predict_with_instructions` calls
`dt_service.predict_with_instructions(tree, points, class_names)`, but no
service file under src defines that method; only its caller and its
response model (`DecisionTreeTraversalPredictResponse`) exist.  The
operation is therefore modelled from the spec. -/

/-- `DecisionTreeTraversalPredictResponse` (api/models.py). -/
structure TraversalPredictResult where
  predicted_class : String
  predicted_class_index : Nat
  confidence : ℚ
  instructions : List String
deriving DecidableEq, Repr

/-- Class label for a predicted index, from the optional class-name list. -/
def classLabelFor (classNames : Option (List String)) (idx : Nat) : String :=
  match classNames with
  | some cs => cs.getD idx ("class_" ++ toString idx)
  | none => "class_" ++ toString idx

/-- Modelled from the spec: `predict_with_instructions` (the service
method behind the `/predict` route) is missing from src, so this follows
spec section 4.5: starting at the root, while the node is a `Split`,
resolve the feature by name in the named input row (missing value is a
`MissingFeature` error), go left on `value <= threshold` appending
`"left"`, else right appending `"right"`; on reaching a `Leaf` append
`"stop"` and report the argmax class of the leaf's class-value
distribution, with confidence the distribution's probability mass at the
argmax class. -/
def predictWithInstructions (points : String → Option ℚ)
    (classNames : Option (List String)) :
    TreeNode → Except String TraversalPredictResult
  | TreeNode.leaf _ _ value =>
    match value.head? with
    | none => Except.error "leaf node has no class value distribution"
    | some probs =>
      if probs.isEmpty then
        Except.error "leaf node has an empty class value distribution"
      else
        let idx := argmaxIdx probs
        Except.ok
          { predicted_class := classLabelFor classNames idx
            predicted_class_index := idx
            confidence := probs.getD idx 0 / sumQ probs
            instructions := ["stop"] }
  | TreeNode.split _ _ _ fname _ thr _ l r =>
    match points fname with
    | none => Except.error ("Missing feature value: " ++ fname)
    | some v =>
      if v ≤ thr then
        (predictWithInstructions points classNames l).map
          (fun res => { res with instructions := "left" :: res.instructions })
      else
        (predictWithInstructions points classNames r).map
          (fun res => { res with instructions := "right" :: res.instructions })

/-- The leaf a named row reaches in a tree (reference path semantics for
the traversal; a split with a missing feature value stops where the
traversal would fail, returning that split). -/
def leafReached (points : String → Option ℚ) : TreeNode → TreeNode
  | TreeNode.leaf s i v => TreeNode.leaf s i v
  | TreeNode.split s i v fname fi thr h l r =>
    match points fname with
    | none => TreeNode.split s i v fname fi thr h l r
    | some x => if x ≤ thr then leafReached points l else leafReached points r

/-- The direction taken at each split on the traversal path, in order
from the root. -/
def dirList (points : String → Option ℚ) : TreeNode → List String
  | TreeNode.leaf _ _ _ => []
  | TreeNode.split _ _ _ fname _ thr _ l r =>
    match points fname with
    | none => []
    | some x =>
      if x ≤ thr then "left" :: dirList points l
      else "right" :: dirList points r

/-- The number of split nodes descended through by a named row. -/
def splitsDescended (points : String → Option ℚ) : TreeNode → Nat
  | TreeNode.leaf _ _ _ => 0
  | TreeNode.split _ _ _ fname _ thr _ l r =>
    match points fname with
    | none => 0
    | some x =>
      if x ≤ thr then 1 + splitsDescended points l
      else 1 + splitsDescended points r

/-- The named row carries a value for every feature the traversal of the
tree needs. -/
def RowCovers (points : String → Option ℚ) : TreeNode → Prop
  | TreeNode.leaf _ _ _ => True
  | TreeNode.split _ _ _ fname _ thr _ l r =>
    ∃ v, points fname = some v ∧
      (if v ≤ thr then RowCovers points l else RowCovers points r)

/-- The leaf's class-value distribution is present and non-empty (true of
every sklearn leaf and of every manual leaf holding at least one class). -/
def LeafDistOk : TreeNode → Prop
  | TreeNode.leaf _ _ value => ∃ probs, value.head? = some probs ∧ probs ≠ []
  | TreeNode.split _ _ _ _ _ _ _ _ _ => False

/-- Argmax class index of a leaf (0 for a split, unreached). -/
def leafArgmax : TreeNode → Nat
  | TreeNode.leaf _ _ value => argmaxIdx (value.headD [])
  | TreeNode.split _ _ _ _ _ _ _ _ _ => 0

/-- Probability mass of a leaf's distribution at its argmax class. -/
def leafMass : TreeNode → ℚ
  | TreeNode.leaf _ _ value =>
    (value.headD []).getD (argmaxIdx (value.headD [])) 0 / sumQ (value.headD [])
  | TreeNode.split _ _ _ _ _ _ _ _ _ => 0

/-! ## Helper lemmas -/

theorem boolMaskLe_map (mask : List Nat) (f : Nat → ℚ) (t : ℚ) :
    boolMaskLe mask (mask.map f) t = mask.filter (fun i => decide (f i ≤ t)) := by
  induction mask with
  | nil => rfl
  | cons a l ih =>
    by_cases h : f a ≤ t <;>
      simp only [boolMaskLe, List.map_cons, List.zip_cons_cons, List.filter_cons,
        decide_eq_true_eq, h, decide_True, decide_False, if_true, if_false,
        List.map_cons, ite_true, ite_false] at ih ⊢ <;>
      simp [ih, boolMaskLe, h]

theorem boolMaskGt_map (mask : List Nat) (f : Nat → ℚ) (t : ℚ) :
    boolMaskGt mask (mask.map f) t = mask.filter (fun i => !decide (f i ≤ t)) := by
  induction mask with
  | nil => rfl
  | cons a l ih =>
    by_cases h : f a ≤ t <;>
      simp only [boolMaskGt, List.map_cons, List.zip_cons_cons, List.filter_cons,
        decide_eq_true_eq, h, decide_True, decide_False, if_true, if_false,
        List.map_cons, ite_true, ite_false, Bool.not_true, Bool.not_false] at ih ⊢ <;>
      simp [ih, boolMaskGt, h]

/-! ## Claims C3 and C4: the split routing rule and the split partition -/

/-- Claim C3: a row whose value at the split feature equals the threshold
exactly is routed to the left child, in all the places that partition or
traverse.  First conjunct: the shared sample-set partition routine
`leftSampleIndices` (used verbatim by `convertTreeToNode`, the
trained-tree converter, and by `calculate_node_statistics` /
`thresholdSweep` in the manual statistics engine) keeps a sample whose
feature value equals the threshold on the left.  Second conjunct: the
generic tree predictor `predictOneWithTree` descends into the left child
when the row value equals the split threshold. -/
theorem equal_value_routes_left :
    (∀ (mask : List Nat) (f : Nat → ℚ) (t : ℚ) (i : Nat),
        i ∈ mask → f i = t → i ∈ leftSampleIndices mask (mask.map f) t) ∧
    (∀ (featureNames : List String) (sample : List ℚ) (sm : Nat) (imp : ℚ)
        (val : List (List ℚ)) (fname : String) (fio : Option Nat) (t : ℚ)
        (hist : Option HistogramData) (l r : TreeNode) (fi : Nat),
        featureNames.findIdx? (· == fname) = some fi →
        sample.get? fi = some t →
        predictOneWithTree featureNames
            (TreeNode.split sm imp val fname fio t hist l r) sample
          = predictOneWithTree featureNames l sample) := by
  constructor
  · intro mask f t i hmem hval
    rw [leftSampleIndices, boolMaskLe_map, List.mem_filter]
    exact ⟨hmem, by simp [hval]⟩
  · intro featureNames sample sm imp val fname fio t hist l r fi hidx hget
    have hget2 : sample[fi]? = some t := by
      rw [← List.get?_eq_getElem?]; exact hget
    simp [predictOneWithTree, hidx, hget2]

/-- Witness for C3 at a concrete input: the sample with value exactly
`5 = threshold` lands in the left index set, and the predictor takes the
left branch on a row whose value equals the threshold. -/
theorem equal_value_routes_left_witness :
    ((0 : Nat) ∈ leftSampleIndices [0] ([0].map (fun _ => (5 : ℚ))) 5) ∧
    predictOneWithTree ["f"]
        (TreeNode.split 3 0 [[1]] "f" none 5 none
          (TreeNode.leaf 1 0 [[1, 0]]) (TreeNode.leaf 2 0 [[0, 2]])) [5]
      = predictOneWithTree ["f"] (TreeNode.leaf 1 0 [[1, 0]]) [5] :=
  ⟨equal_value_routes_left.1 [0] (fun _ => 5) 5 0 (by decide) rfl,
   equal_value_routes_left.2 ["f"] [5] 3 0 [[1]] "f" none 5 none
     (TreeNode.leaf 1 0 [[1, 0]]) (TreeNode.leaf 2 0 [[0, 2]]) 0
     (by decide) rfl⟩

/-- Claim C4: the left/right sample sets computed for every split (by the
trained-tree converter and by the manual engine via `leftSampleIndices` /
`rightSampleIndices`) are a partition of the parent sample set: samples
with value `<= threshold` go left, the rest go right, the two sets are
disjoint, and the two sizes add up to the parent size. -/
theorem split_partitions_sample_set :
    ∀ (mask : List Nat) (f : Nat → ℚ) (t : ℚ),
      (∀ i ∈ mask, f i ≤ t → i ∈ leftSampleIndices mask (mask.map f) t) ∧
      (∀ i ∈ mask, ¬ f i ≤ t → i ∈ rightSampleIndices mask (mask.map f) t) ∧
      (∀ i, i ∈ leftSampleIndices mask (mask.map f) t →
        i ∉ rightSampleIndices mask (mask.map f) t) ∧
      (leftSampleIndices mask (mask.map f) t).length
          + (rightSampleIndices mask (mask.map f) t).length = mask.length := by
  intro mask f t
  rw [leftSampleIndices, rightSampleIndices, boolMaskLe_map, boolMaskGt_map]
  refine ⟨?_, ?_, ?_, ?_⟩
  · intro i hmem hle
    exact List.mem_filter.mpr ⟨hmem, by simp [hle]⟩
  · intro i hmem hgt
    exact List.mem_filter.mpr ⟨hmem, by simp [hgt]⟩
  · intro i hleft hright
    have h1 := (List.mem_filter.mp hleft).2
    have h2 := (List.mem_filter.mp hright).2
    simp at h1 h2
    exact absurd h1 (not_le.mpr h2)
  · exact (List.length_eq_length_filter_add (fun i => decide (f i ≤ t))).symm

/-- Witness for C4 at a concrete input: mask `[3, 7, 9]` with values
`1, 2, 3` against threshold `2`. -/
theorem split_partitions_sample_set_witness :
    ((3 : Nat) ∈ leftSampleIndices [3, 7, 9] ([3, 7, 9].map (fun i => (i : ℚ) - 2)) 2) ∧
    ((9 : Nat) ∈ rightSampleIndices [3, 7, 9] ([3, 7, 9].map (fun i => (i : ℚ) - 2)) 2) ∧
    (leftSampleIndices [3, 7, 9] ([3, 7, 9].map (fun i => (i : ℚ) - 2)) 2).length
        + (rightSampleIndices [3, 7, 9] ([3, 7, 9].map (fun i => (i : ℚ) - 2)) 2).length
      = 3 :=
  ⟨(split_partitions_sample_set [3, 7, 9] (fun i => (i : ℚ) - 2) 2).1 3
      (by decide) (by norm_num),
   ((split_partitions_sample_set [3, 7, 9] (fun i => (i : ℚ) - 2) 2).2.1) 9
      (by decide) (by norm_num),
   (split_partitions_sample_set [3, 7, 9] (fun i => (i : ℚ) - 2) 2).2.2.2⟩

/-! ## Claims C2 and C5: the per-feature threshold sweep -/

/-- Stand-in for `np.log2` in concrete gini-criterion scenarios (never
evaluated under the gini criterion). -/
def log2Stub : ℚ → ℚ := fun _ => 0

/-- The feature column of the C2 scenario dataset. -/
def giniScenarioValues : List ℚ := [1, 2, 3, 4]

/-- The labels of the C2 scenario dataset. -/
def giniScenarioLabels : List Nat := [0, 0, 1, 1]

/-- The per-threshold statistics list `calculate_feature_statistics`
computes internally for the C2 scenario (root mask, gini,
`max_thresholds = 100`). -/
def giniScenarioSweep : List ThresholdStatistics :=
  thresholdSweep log2Stub ["c0", "c1"] "gini"
    (createNodeStatistics log2Stub giniScenarioLabels ["c0", "c1"] "gini")
    (List.range 4) giniScenarioLabels giniScenarioValues
    (cappedSplitPoints (splitPointsOf giniScenarioValues) 100)

/-- Claim C2 (code bug): on the dataset with feature values
`[1, 2, 3, 4]`, labels `[0, 0, 1, 1]` and criterion gini, the sweep does
compute exactly the three candidate thresholds `1.5, 2.5, 3.5` with
`best_threshold = 2.5` at information gain `0.5` — but
`calculate_feature_statistics` then raises `NameError` inside
`_create_histogram_data` (whose body reads the undefined name
`thresholds`), so the call errors instead of returning them. -/
theorem gini_scenario_computes_claimed_sweep_then_raises :
    cappedSplitPoints (splitPointsOf giniScenarioValues) 100 = [3/2, 5/2, 7/2] ∧
    giniScenarioSweep.map (·.threshold) = [3/2, 5/2, 7/2] ∧
    giniScenarioSweep.map (·.information_gain) = [1/6, 1/2, 1/6] ∧
    bestIdxOf giniScenarioSweep = 1 ∧
    ((giniScenarioSweep.get? (bestIdxOf giniScenarioSweep)).map (·.threshold))
      = some (5/2) ∧
    calculate_feature_statistics log2Stub [[1], [2], [3], [4]] giniScenarioLabels
        ["feature"] ["c0", "c1"] "feature" none "gini" 100
      = Except.error "NameError: name thresholds is not defined" := by
  refine ⟨?_, ?_, ?_, ?_, ?_, ?_⟩ <;> with_unfolding_all rfl

/-- The feature column of the C5 down-sampling scenario: 8 unique values,
hence 7 candidate midpoints. -/
def capScenarioValues : List ℚ := [1, 2, 3, 4, 5, 6, 7, 8]

/-- The labels of the C5 scenario. -/
def capScenarioLabels : List Nat := [0, 0, 0, 0, 1, 1, 1, 1]

/-- The candidate midpoints of the C5 scenario. -/
def capScenarioCandidates : List ℚ := splitPointsOf capScenarioValues

/-- The retained thresholds after percentile down-sampling with
`max_thresholds = 3`. -/
def capScenarioSampled : List ℚ := cappedSplitPoints capScenarioCandidates 3

/-- The per-threshold statistics the sweep computes for the retained
thresholds of the C5 scenario. -/
def capScenarioSweep : List ThresholdStatistics :=
  thresholdSweep log2Stub ["c0", "c1"] "gini"
    (createNodeStatistics log2Stub capScenarioLabels ["c0", "c1"] "gini")
    (List.range 8) capScenarioLabels capScenarioValues capScenarioSampled

/-- Claim C5 (code bug): with `u = 8` unique values and
`max_thresholds = 3 < u - 1`, the percentile down-sampling retains
`[1.5, 4.5, 7.5]` — at most 3 thresholds, containing the minimum and the
maximum of the 7 candidate midpoints — and the best threshold (first
maximal information gain) is among them; but
`calculate_feature_statistics` then raises the `NameError` of
`_create_histogram_data` instead of returning them. -/
theorem threshold_cap_keeps_range_then_raises :
    capScenarioCandidates = [3/2, 5/2, 7/2, 9/2, 11/2, 13/2, 15/2] ∧
    capScenarioSampled = [3/2, 9/2, 15/2] ∧
    capScenarioSampled.length ≤ 3 ∧
    minQ capScenarioCandidates ∈ capScenarioSampled ∧
    maxQ capScenarioCandidates ∈ capScenarioSampled ∧
    ((capScenarioSweep.get? (bestIdxOf capScenarioSweep)).map (·.threshold))
      = some (9/2) ∧
    (9/2 : ℚ) ∈ capScenarioSampled ∧
    calculate_feature_statistics log2Stub (capScenarioValues.map (fun v => [v]))
        capScenarioLabels ["feature"] ["c0", "c1"] "feature" none "gini" 3
      = Except.error "NameError: name thresholds is not defined" := by
  refine ⟨?_, ?_, ?_, ?_, ?_, ?_, ?_, ?_⟩ <;>
    first
    | with_unfolding_all rfl
    | with_unfolding_all decide

/-! ## Claim C6: statistics on empty sample sets -/

/-- Counterexample to C6 as stated: `calculate_node_statistics` on an
empty sample mask does NOT return zero weighted impurity and gain — the
empty request mask becomes a float64 `np.array([])`, and numpy fancy
indexing with a float-dtype index array raises `IndexError` at
`X[samples_mask]` (manual_tree_service.py line 203), before the
zero-sample guard is ever reached. -/
theorem node_stats_empty_mask_raises_index_error :
    calculate_node_statistics log2Stub [[1], [2], [3], [4]] [0, 0, 1, 1]
        ["f"] ["c0", "c1"] "f" (5/2) (some []) "gini"
      = Except.error
        "IndexError: arrays used as indices must be of integer (or boolean) type" := by
  with_unfolding_all rfl

/-- Claim C6 (amended): the impurity of an empty label sequence is `0.0`
for both gini and entropy (returned, not raised: these are exercised with
integer-dtype boolean-masked label arrays, e.g. an empty split side); but
on an empty sample mask both `node_stats` and `feature_stats` raise
`IndexError` at the first fancy indexing of the float64-dtype empty index
array, so the zero-sample division guard of `calculate_node_statistics`
(lines 230-232) is unreachable and an empty sample set is not processed
without error. -/
theorem empty_statistics_behavior :
    calcGini [] = 0 ∧
    (∀ log2 : ℚ → ℚ, calcEntropy log2 [] = 0) ∧
    (∀ (log2 : ℚ → ℚ) (X : List (List ℚ)) (y : List Nat)
        (fns cns : List String) (feature : String) (t : ℚ) (crit : String)
        (fi : Nat), fns.findIdx? (· == feature) = some fi →
        calculate_node_statistics log2 X y fns cns feature t (some []) crit
          = Except.error
            "IndexError: arrays used as indices must be of integer (or boolean) type") ∧
    (∀ (log2 : ℚ → ℚ) (X : List (List ℚ)) (y : List Nat)
        (fns cns : List String) (feature : String) (crit : String)
        (maxThresholds : Nat) (fi : Nat), fns.findIdx? (· == feature) = some fi →
        calculate_feature_statistics log2 X y fns cns feature (some []) crit
            maxThresholds
          = Except.error
            "IndexError: arrays used as indices must be of integer (or boolean) type") := by
  refine ⟨rfl, fun log2 => rfl, ?_, ?_⟩
  · intro log2 X y fns cns feature t crit fi hidx
    simp only [calculate_node_statistics, hidx]
    rfl
  · intro log2 X y fns cns feature crit maxThresholds fi hidx
    simp only [calculate_feature_statistics, hidx]
    rfl

/-- Witness for C6 (amended) at a concrete input: on the empty mask of a
2-row dataset, both statistics entry points raise the numpy `IndexError`
of the float64 empty index array. -/
theorem empty_statistics_behavior_witness :
    calcGini [] = 0 ∧
    calculate_node_statistics log2Stub [[1], [2]] [0, 1] ["g"] ["c0"] "g" 1
        (some []) "gini"
      = Except.error
        "IndexError: arrays used as indices must be of integer (or boolean) type" ∧
    calculate_feature_statistics log2Stub [[1], [2]] [0, 1] ["g"] ["c0"] "g"
        (some []) "gini" 100
      = Except.error
        "IndexError: arrays used as indices must be of integer (or boolean) type" :=
  ⟨empty_statistics_behavior.1,
   empty_statistics_behavior.2.2.1 log2Stub [[1], [2]] [0, 1] ["g"] ["c0"]
     "g" 1 "gini" 0 rfl,
   empty_statistics_behavior.2.2.2 log2Stub [[1], [2]] [0, 1] ["g"] ["c0"]
     "g" "gini" 100 0 rfl⟩

/-! ## Claim C7: no feature-name/column-count validation in the converter -/

/-- Whether an `Except` value is a success. -/
def exceptIsOk {ε α : Type} : Except ε α → Bool
  | Except.ok _ => true
  | Except.error _ => false

/-- A two-leaf trained tree stub: node 0 splits feature 0 at `5/2` into
leaf nodes 1 and 2 (sklearn leaf sentinel: equal child pointers). -/
def skMismatchTree : SkTree :=
  { children_left := fun n => if n = 0 then 1 else -1
    children_right := fun n => if n = 0 then 2 else -1
    feature := fun _ => 0
    threshold := fun _ => 5/2
    n_node_samples := fun n => if n = 0 then 4 else 2
    impurity := fun n => if n = 0 then 1/2 else 0
    value := fun n => if n = 0 then [[2, 2]] else if n = 1 then [[2, 0]] else [[0, 2]] }

/-- Counterexample to C7 as stated: the converter is given two feature
names for a one-column feature matrix (a configuration mismatch), yet no
`ConfigurationMismatch` error is raised — conversion succeeds and
produces a tree. -/
theorem converter_mismatch_produces_tree :
    (["sepal length", "petal width"] : List String).length = 2 ∧
    (([[1], [2], [3], [4]] : List (List ℚ)).all (fun r => r.length == 1)) = true ∧
    exceptIsOk (convertTreeToNode skMismatchTree ["sepal length", "petal width"]
        [[1], [2], [3], [4]] [0, 0, 1, 1] 3 0 none) = true := by
  refine ⟨rfl, by decide, by with_unfolding_all rfl⟩

theorem resolveFeatureName_append (fns extra : List String) (fidx : Nat)
    (name : String) (h : fns ≠ [])
    (hr : resolveFeatureName fns fidx = Except.ok name) :
    resolveFeatureName (fns ++ extra) fidx = Except.ok name := by
  have hne : fns.isEmpty = false := by
    cases fns with
    | nil => exact absurd rfl h
    | cons a l => rfl
  have hne2 : (fns ++ extra).isEmpty = false := by
    cases fns with
    | nil => exact absurd rfl h
    | cons a l => rfl
  rw [resolveFeatureName, hne] at hr
  rw [resolveFeatureName, hne2]
  simp only [Bool.false_eq_true, if_false] at hr ⊢
  cases hf : fns.get? fidx with
  | none => rw [hf] at hr; exact Except.noConfusion hr
  | some n =>
    rw [hf] at hr
    have hlt : fidx < fns.length := by
      by_contra hgt
      rw [List.get?_eq_none.mpr (Nat.le_of_not_lt hgt)] at hf
      exact Option.noConfusion hf
    rw [List.get?_append hlt, hf]
    exact hr

/-- Claim C7 (amended): the converter performs no feature-name /
column-count validation at all.  Appending extra feature names — making
`feature_names` longer than `X` has columns — never changes a successful
conversion: the same tree is produced despite the mismatch, instead of a
fail-fast `ConfigurationMismatch` error. -/
theorem convert_ignores_extra_feature_names :
    ∀ (fuel : Nat) (t : SkTree) (X : List (List ℚ)) (y : List Nat)
      (fns extra : List String) (nodeId : Nat) (si : Option (List Nat))
      (tr : TreeNode), fns ≠ [] →
      convertTreeToNode t fns X y fuel nodeId si = Except.ok tr →
      convertTreeToNode t (fns ++ extra) X y fuel nodeId si = Except.ok tr := by
  intro fuel
  induction fuel with
  | zero =>
    intro t X y fns extra nodeId si tr h hr
    exact Except.noConfusion hr
  | succ fuel ih =>
    intro t X y fns extra nodeId si tr h hr
    rw [convertTreeToNode] at hr ⊢
    dsimp only at hr ⊢
    by_cases hc : t.children_left nodeId = t.children_right nodeId
    · rw [if_pos hc] at hr ⊢
      exact hr
    · rw [if_neg hc] at hr ⊢
      cases hrn : resolveFeatureName fns (t.feature nodeId) with
      | error e =>
        rw [hrn] at hr
        exact Except.noConfusion hr
      | ok fname =>
        rw [hrn] at hr
        rw [resolveFeatureName_append fns extra (t.feature nodeId) fname h hrn]
        dsimp only at hr ⊢
        cases hh : createHistogramDataDT (si.getD (List.range X.length))
            (t.feature nodeId) X y (some (t.threshold nodeId)) with
        | error e =>
          rw [hh] at hr
          exact Except.noConfusion hr
        | ok hist =>
          rw [hh] at hr
          dsimp only at hr ⊢
          cases hfv : npFancyCol X (si.getD (List.range X.length))
              (t.feature nodeId) with
          | error e =>
            rw [hfv] at hr
            exact Except.noConfusion hr
          | ok fv =>
            rw [hfv] at hr
            dsimp only at hr ⊢
            cases hl : convertTreeToNode t fns X y fuel
                (t.children_left nodeId).toNat
                (some (leftSampleIndices (si.getD (List.range X.length)) fv
                  (t.threshold nodeId))) with
            | error e =>
              rw [hl] at hr
              exact Except.noConfusion hr
            | ok leftNode =>
              rw [hl] at hr
              rw [ih t X y fns extra _ _ leftNode h hl]
              dsimp only at hr ⊢
              cases hrr : convertTreeToNode t fns X y fuel
                  (t.children_right nodeId).toNat
                  (some (rightSampleIndices (si.getD (List.range X.length)) fv
                    (t.threshold nodeId))) with
              | error e =>
                rw [hrr] at hr
                exact Except.noConfusion hr
              | ok rightNode =>
                rw [hrr] at hr
                rw [ih t X y fns extra _ _ rightNode h hrr]
                dsimp only at hr ⊢
                exact hr

/-- A one-node trained tree stub: node 0 is a leaf (equal child
pointers). -/
def skLeafOnlyTree : SkTree :=
  { children_left := fun _ => -1
    children_right := fun _ => -1
    feature := fun _ => 0
    threshold := fun _ => 0
    n_node_samples := fun _ => 1
    impurity := fun _ => 0
    value := fun _ => [[1]] }

/-- Witness for C7 (amended) at a concrete input: conversion of a leaf
tree succeeds identically with one feature name and with an appended
extra name that makes the name list longer than the single-column
matrix. -/
theorem convert_ignores_extra_feature_names_witness :
    convertTreeToNode skLeafOnlyTree (["a"] ++ ["b"]) [[1]] [0] 1 0 none
      = Except.ok (TreeNode.leaf 1 0 [[1]]) :=
  convert_ignores_extra_feature_names 1 skLeafOnlyTree [[1]] [0] ["a"] ["b"]
    0 none (TreeNode.leaf 1 0 [[1]]) (by decide) (by with_unfolding_all rfl)

/-! ## Claim C1: prediction with traversal instructions -/

/-- Claim C1: for every tree and named row covering every feature the
traversal needs (and a well-formed distribution at the leaf reached),
`predictWithInstructions` succeeds and returns the argmax class of the
selected leaf, its index, the confidence equal to the leaf's
class-value-distribution probability mass at the argmax class, and an
instruction list holding exactly one `"left"`/`"right"` entry per split
node descended, in traversal order from the root, followed by a single
final `"stop"`. -/
theorem predict_with_instructions_traces_path :
    ∀ (tree : TreeNode) (points : String → Option ℚ)
      (classNames : Option (List String)),
      RowCovers points tree → LeafDistOk (leafReached points tree) →
      ∃ res, predictWithInstructions points classNames tree = Except.ok res ∧
        res.instructions = dirList points tree ++ ["stop"] ∧
        (∀ d ∈ dirList points tree, d = "left" ∨ d = "right") ∧
        (dirList points tree).length = splitsDescended points tree ∧
        res.predicted_class_index = leafArgmax (leafReached points tree) ∧
        res.confidence = leafMass (leafReached points tree) ∧
        res.predicted_class
          = classLabelFor classNames (leafArgmax (leafReached points tree)) := by
  intro tree points classNames
  induction tree with
  | leaf s i v =>
    intro _ hld
    have hlr : leafReached points (TreeNode.leaf s i v) = TreeNode.leaf s i v := rfl
    rw [hlr] at hld
    obtain ⟨probs, hhead, hne⟩ := hld
    cases v with
    | nil => exact Option.noConfusion hhead
    | cons p0 rest =>
      have hp0 : p0 = probs := by
        have : some p0 = some probs := hhead
        exact Option.noConfusion this (fun h => h)
      subst hp0
      have hpe : p0.isEmpty = false := by
        cases p0 with
        | nil => exact absurd rfl hne
        | cons a b => rfl
      refine ⟨{ predicted_class := classLabelFor classNames (argmaxIdx p0)
                predicted_class_index := argmaxIdx p0
                confidence := p0.getD (argmaxIdx p0) 0 / sumQ p0
                instructions := ["stop"] }, ?_, ?_, ?_, ?_, ?_, ?_, ?_⟩
      · simp only [predictWithInstructions, List.head?_cons, hpe,
          Bool.false_eq_true, if_false]
      · simp [dirList]
      · intro d hd
        simp [dirList] at hd
      · simp [dirList, splitsDescended]
      · simp [leafArgmax, leafReached, List.headD]
      · simp [leafMass, leafReached, List.headD]
      · simp [leafArgmax, leafReached, List.headD]
  | split s i v fname fio thr hist l r ihl ihr =>
    intro hcov hld
    obtain ⟨x, hx, hrest⟩ := hcov
    by_cases hle : x ≤ thr
    · rw [if_pos hle] at hrest
      have hlr : leafReached points (TreeNode.split s i v fname fio thr hist l r)
          = leafReached points l := by
        rw [leafReached, hx]
        dsimp only
        rw [if_pos hle]
      have hdl : dirList points (TreeNode.split s i v fname fio thr hist l r)
          = "left" :: dirList points l := by
        rw [dirList, hx]
        dsimp only
        rw [if_pos hle]
      have hsd : splitsDescended points (TreeNode.split s i v fname fio thr hist l r)
          = 1 + splitsDescended points l := by
        rw [splitsDescended, hx]
        dsimp only
        rw [if_pos hle]
      rw [hlr] at hld
      obtain ⟨res, hok, hinstr, hdirs, hlen, hidx, hconf, hcls⟩ := ihl hrest hld
      refine ⟨{ res with instructions := "left" :: res.instructions },
        ?_, ?_, ?_, ?_, ?_, ?_, ?_⟩
      · rw [predictWithInstructions, hx]
        dsimp only
        rw [if_pos hle, hok]
        rfl
      · rw [hdl]
        simp only [hinstr, List.cons_append]
      · rw [hdl]
        intro d hd
        cases hd with
        | head => exact Or.inl rfl
        | tail _ hmem => exact hdirs d hmem
      · rw [hdl, hsd, List.length_cons, hlen, Nat.add_comm]
      · rw [hlr]
        exact hidx
      · rw [hlr]
        exact hconf
      · rw [hlr]
        exact hcls
    · rw [if_neg hle] at hrest
      have hlr : leafReached points (TreeNode.split s i v fname fio thr hist l r)
          = leafReached points r := by
        rw [leafReached, hx]
        dsimp only
        rw [if_neg hle]
      have hdl : dirList points (TreeNode.split s i v fname fio thr hist l r)
          = "right" :: dirList points r := by
        rw [dirList, hx]
        dsimp only
        rw [if_neg hle]
      have hsd : splitsDescended points (TreeNode.split s i v fname fio thr hist l r)
          = 1 + splitsDescended points r := by
        rw [splitsDescended, hx]
        dsimp only
        rw [if_neg hle]
      rw [hlr] at hld
      obtain ⟨res, hok, hinstr, hdirs, hlen, hidx, hconf, hcls⟩ := ihr hrest hld
      refine ⟨{ res with instructions := "right" :: res.instructions },
        ?_, ?_, ?_, ?_, ?_, ?_, ?_⟩
      · rw [predictWithInstructions, hx]
        dsimp only
        rw [if_neg hle, hok]
        rfl
      · rw [hdl]
        simp only [hinstr, List.cons_append]
      · rw [hdl]
        intro d hd
        cases hd with
        | head => exact Or.inr rfl
        | tail _ hmem => exact hdirs d hmem
      · rw [hdl, hsd, List.length_cons, hlen, Nat.add_comm]
      · rw [hlr]
        exact hidx
      · rw [hlr]
        exact hconf
      · rw [hlr]
        exact hcls

/-- A concrete two-leaf tree for exercising the traversal predictor. -/
def demoTraversalTree : TreeNode :=
  TreeNode.split 4 (1/2) [[2, 2]] "f" none (5/2) none
    (TreeNode.leaf 2 0 [[2, 0]]) (TreeNode.leaf 2 0 [[0, 2]])

/-- A concrete named row for the demo tree. -/
def demoTraversalPoints : String → Option ℚ :=
  fun s => if s = "f" then some 1 else none

/-- Witness for C1 at a concrete input: the row `{f: 1}` covers the demo
tree, the reached leaf has a sound distribution, and the traversal
result satisfies every clause of the claim. -/
theorem predict_with_instructions_traces_path_witness :
    RowCovers demoTraversalPoints demoTraversalTree ∧
    LeafDistOk (leafReached demoTraversalPoints demoTraversalTree) ∧
    ∃ res, predictWithInstructions demoTraversalPoints (some ["c0", "c1"])
        demoTraversalTree = Except.ok res ∧
      res.instructions = dirList demoTraversalPoints demoTraversalTree ++ ["stop"] ∧
      (∀ d ∈ dirList demoTraversalPoints demoTraversalTree,
        d = "left" ∨ d = "right") ∧
      (dirList demoTraversalPoints demoTraversalTree).length
        = splitsDescended demoTraversalPoints demoTraversalTree ∧
      res.predicted_class_index
        = leafArgmax (leafReached demoTraversalPoints demoTraversalTree) ∧
      res.confidence = leafMass (leafReached demoTraversalPoints demoTraversalTree) ∧
      res.predicted_class = classLabelFor (some ["c0", "c1"])
        (leafArgmax (leafReached demoTraversalPoints demoTraversalTree)) := by
  have hcov : RowCovers demoTraversalPoints demoTraversalTree := by
    refine ⟨1, by with_unfolding_all rfl, ?_⟩
    rw [if_pos (by norm_num : (1 : ℚ) ≤ 5/2)]
    exact trivial
  have hleaf : leafReached demoTraversalPoints demoTraversalTree
      = TreeNode.leaf 2 0 [[2, 0]] := by
    with_unfolding_all rfl
  have hld : LeafDistOk (leafReached demoTraversalPoints demoTraversalTree) := by
    rw [hleaf]
    exact ⟨[2, 0], rfl, by decide⟩
  exact ⟨hcov, hld, predict_with_instructions_traces_path demoTraversalTree
    demoTraversalPoints (some ["c0", "c1"]) hcov hld⟩

/-! ## Association-list lemmas for the cache dict -/

theorem find_map_replace_eq {β : Type} (l : List (String × β)) (key : String)
    (v : β) :
    (l.map (fun e => if e.1 == key then (key, v) else e)).find?
        (fun e => e.1 == key)
      = (l.find? (fun e => e.1 == key)).map (fun _ => (key, v)) := by
  induction l with
  | nil => rfl
  | cons e0 rest ih =>
    cases hk : (e0.1 == key) with
    | true =>
      simp only [List.map_cons, hk, if_true, List.find?_cons, beq_self_eq_true]
      rfl
    | false =>
      simp only [List.map_cons, hk, Bool.false_eq_true, if_false,
        List.find?_cons, ih]

theorem find_map_replace_ne {β : Type} (l : List (String × β)) (key k : String)
    (v : β) (h : (k == key) = false) :
    (l.map (fun e => if e.1 == key then (key, v) else e)).find?
        (fun e => e.1 == k)
      = l.find? (fun e => e.1 == k) := by
  induction l with
  | nil => rfl
  | cons e0 rest ih =>
    cases hk : (e0.1 == key) with
    | true =>
      have he : e0.1 = key := eq_of_beq hk
      have h2 : (key == k) = false := by
        cases hkk : (key == k) with
        | false => rfl
        | true => rw [eq_of_beq hkk, beq_self_eq_true] at h; exact h
      have h3 : (e0.1 == k) = false := by rw [he]; exact h2
      simp only [List.map_cons, hk, if_true, List.find?_cons, h2, h3, ih]
    | false =>
      cases hk2 : (e0.1 == k) with
      | true =>
        simp only [List.map_cons, hk, Bool.false_eq_true, if_false,
          List.find?_cons, hk2]
      | false =>
        simp only [List.map_cons, hk, Bool.false_eq_true, if_false,
          List.find?_cons, hk2, ih]

theorem find_none_of_not_mem_keys {β : Type} (l : List (String × β)) (k : String)
    (h : k ∉ l.map (·.1)) : l.find? (fun e => e.1 == k) = none := by
  induction l with
  | nil => rfl
  | cons e0 rest ih =>
    have h1 : e0.1 ≠ k := fun he => h (by simp [List.map_cons, he])
    have h2 : k ∉ rest.map (·.1) := fun hm => h (by simp [List.map_cons, hm])
    have hb : (e0.1 == k) = false := beq_eq_false_iff_ne.mpr h1
    simp only [List.find?_cons, hb, ih h2]

theorem find_mem_nodup {β : Type} (l : List (String × β)) (k : String) (v : β)
    (hnd : (l.map (·.1)).Nodup) (hm : (k, v) ∈ l) :
    l.find? (fun e => e.1 == k) = some (k, v) := by
  induction l with
  | nil => exact absurd hm (List.not_mem_nil _)
  | cons e0 rest ih =>
    rw [List.map_cons, List.nodup_cons] at hnd
    cases hm with
    | head => simp only [List.find?_cons, beq_self_eq_true]
    | tail _ hmem =>
      have hk : k ∈ rest.map (·.1) := List.mem_map.mpr ⟨(k, v), hmem, rfl⟩
      have hne : e0.1 ≠ k := fun he => hnd.1 (he ▸ hk)
      have hb : (e0.1 == k) = false := beq_eq_false_iff_ne.mpr hne
      simp only [List.find?_cons, hb, ih hnd.2 hmem]

theorem dictAssign_fresh {R : Type} (d : List (String × CachePayload R))
    (k : String) (v : CachePayload R) (h : k ∉ d.map (·.1)) :
    dictAssign d k v = d ++ [(k, v)] := by
  have ha : d.any (fun e => e.1 == k) = false := by
    rw [Bool.eq_false_iff]
    intro hcon
    obtain ⟨e, hmem, hbe⟩ := List.any_eq_true.mp hcon
    exact h (List.mem_map.mpr ⟨e, hmem, eq_of_beq hbe⟩)
  rw [dictAssign, ha]
  simp

theorem dictAssign_present {R : Type} (d : List (String × CachePayload R))
    (k : String) (v : CachePayload R) (h : k ∈ d.map (·.1)) :
    dictAssign d k v = d.map (fun e => if e.1 == k then (k, v) else e) := by
  have ha : d.any (fun e => e.1 == k) = true := by
    obtain ⟨e, hmem, he⟩ := List.mem_map.mp h
    exact List.any_eq_true.mpr ⟨e, hmem, beq_iff_eq.mpr he⟩
  rw [dictAssign, ha]
  simp

/-! ## Claim C8: cache entry immutability -/

/-- An empty enabled cache of capacity 100 (the default settings). -/
def emptyDemoCache : ModelCacheService Unit :=
  { cache := [], maxSize := 100, enabled := true }

/-- The cache state after storing one payload under `"k"` at time 0. -/
def demoCacheOne : ModelCacheService Unit :=
  { cache := [("k", { cached := false, cachedAt := some 0, rest := () })],
    maxSize := 100, enabled := true }

/-- Counterexample to C8 as stated: after `set` stores an entry, a
`train_model` cache hit changes the stored entry in place — its `cached`
field flips from `False` to `True`, so the stored contents after the hit
differ from the stored contents before it. -/
theorem cache_hit_mutates_stored_entry :
    cacheSet emptyDemoCache "k" { cached := false, cachedAt := none, rest := () } 0
      = Except.ok demoCacheOne ∧
    cacheGet demoCacheOne "k"
      = some { cached := false, cachedAt := some 0, rest := () } ∧
    (trainModelCacheHit demoCacheOne "k").map (fun r => cacheGet r.1 "k")
      = some (some { cached := true, cachedAt := some 0, rest := () }) ∧
    (some (some ({ cached := true, cachedAt := some 0, rest := () } : CachePayload Unit))
      ≠ some (some ({ cached := false, cachedAt := some 0, rest := () } : CachePayload Unit))) := by
  refine ⟨rfl, by decide, by decide, by decide⟩

/-- Claim C8 (amended): a cache entry is immutable except for the
`train_model` cache-hit aliasing write: a hit rewrites the stored entry's
`cached` field to `True` in place, changes nothing else about that entry,
leaves every other entry and the cache size/settings untouched, and a
plain `get` changes nothing at all (it is a pure read in the state-passing
model). -/
theorem cache_hit_only_sets_cached_flag :
    ∀ (R : Type) (s : ModelCacheService R) (key : String) (p : CachePayload R),
      cacheGet s key = some p →
      ∃ s2, trainModelCacheHit s key = some (s2, { p with cached := true }) ∧
        cacheGet s2 key = some { p with cached := true } ∧
        (∀ k, k ≠ key → cacheGet s2 k = cacheGet s k) ∧
        s2.cache.length = s.cache.length ∧
        s2.maxSize = s.maxSize ∧ s2.enabled = s.enabled := by
  intro R s key p hget
  cases henb : s.enabled with
  | false =>
    rw [cacheGet, henb] at hget
    simp at hget
  | true =>
    rw [cacheGet, henb] at hget
    simp only [if_true] at hget
    obtain ⟨e, hfind, he2⟩ := Option.map_eq_some'.mp hget
    have hpb := List.find?_some hfind
    have he1 : e.1 = key := eq_of_beq hpb
    have hep : e = (key, p) := by
      cases e with
      | mk a b => cases he1; cases he2; rfl
    rw [hep] at hfind
    have hhit : trainModelCacheHit s key
        = some ({ s with
              cache := s.cache.map
                (fun e => if e.1 == key then (key, { p with cached := true }) else e) },
          { p with cached := true }) := by
      rw [trainModelCacheHit, cacheGet, henb]
      simp only [if_true, hget]
    refine ⟨_, hhit, ?_, ?_, ?_, rfl, henb⟩
    · rw [cacheGet]
      simp only [henb, if_true]
      rw [find_map_replace_eq, hfind]
      rfl
    · intro k hk
      rw [cacheGet, cacheGet]
      simp only [henb, if_true]
      rw [find_map_replace_ne]
      exact beq_eq_false_iff_ne.mpr hk
    · simp

/-- Witness for C8 (amended) at a concrete input: a cache hit on the
stored key flips exactly the `cached` flag of the stored entry. -/
theorem cache_hit_only_sets_cached_flag_witness :
    ∃ s2, trainModelCacheHit demoCacheOne "k"
        = some (s2, { cached := true, cachedAt := some 0, rest := () }) ∧
      cacheGet s2 "k" = some { cached := true, cachedAt := some 0, rest := () } ∧
      (∀ k, k ≠ "k" → cacheGet s2 k = cacheGet demoCacheOne k) ∧
      s2.cache.length = demoCacheOne.cache.length ∧
      s2.maxSize = demoCacheOne.maxSize ∧ s2.enabled = demoCacheOne.enabled :=
  cache_hit_only_sets_cached_flag Unit demoCacheOne "k"
    { cached := false, cachedAt := some 0, rest := () } (by decide)

/-! ## Claims C9 and C10: bounded FIFO eviction -/

theorem stampItem_key {R : Type} (it : String × CachePayload R × Nat) :
    (stampItem it).1 = it.1 := rfl

theorem stamp_keys {R : Type} (l : List (String × CachePayload R × Nat)) :
    (l.map stampItem).map (·.1) = l.map (·.1) := by
  rw [List.map_map]
  rfl

theorem cacheSetAll_append {R : Type} (l1 l2 : List (String × CachePayload R × Nat)) :
    ∀ s : ModelCacheService R,
      cacheSetAll s (l1 ++ l2)
        = (cacheSetAll s l1) >>= (fun s2 => cacheSetAll s2 l2) := by
  induction l1 with
  | nil =>
    intro s
    rw [List.nil_append]
    rfl
  | cons it rest ih =>
    intro s
    rw [List.cons_append, cacheSetAll, cacheSetAll, List.foldlM_cons,
      List.foldlM_cons]
    cases cacheSet s it.1 it.2.1 it.2.2 with
    | error e => rfl
    | ok s1 =>
      show cacheSetAll s1 (rest ++ l2) = _
      rw [ih s1]
      rfl

theorem cacheSetAll_under_capacity {R : Type} :
    ∀ (items : List (String × CachePayload R × Nat)) (s : ModelCacheService R),
      s.enabled = true →
      s.cache.length + items.length ≤ s.maxSize →
      ((s.cache.map (·.1)) ++ (items.map (·.1))).Nodup →
      cacheSetAll s items
        = Except.ok { s with cache := s.cache ++ items.map stampItem } := by
  intro items
  induction items with
  | nil =>
    intro s henb hlen hnd
    show Except.ok s = _
    rw [List.map_nil, List.append_nil]
  | cons it rest ih =>
    intro s henb hlen hnd
    have hlt : ¬ (s.maxSize ≤ s.cache.length) := by
      rw [List.length_cons] at hlen
      omega
    have hfresh : it.1 ∉ s.cache.map (·.1) := by
      rw [List.map_cons, List.nodup_append] at hnd
      intro hmem
      exact hnd.2.2 hmem (List.mem_cons_self _ _)
    have hset : cacheSet s it.1 it.2.1 it.2.2
        = Except.ok { s with cache := s.cache ++ [stampItem it] } := by
      rw [cacheSet, henb, if_pos rfl, if_neg hlt]
      dsimp only
      rw [dictAssign_fresh _ _ _ hfresh]
      rfl
    rw [cacheSetAll, List.foldlM_cons, hset]
    show cacheSetAll { s with cache := s.cache ++ [stampItem it] } rest = _
    rw [ih { s with cache := s.cache ++ [stampItem it] } henb
      (by simp only [List.length_append, List.length_cons, List.length_nil] at hlen ⊢; omega)
      (by
        rw [List.map_append, List.append_assoc]
        have : ((s.cache.map (·.1)) ++ ([stampItem it].map (·.1) ++ rest.map (·.1)))
            = (s.cache.map (·.1)) ++ ((it :: rest).map (·.1)) := by
          rw [List.map_cons]
          rfl
        rw [this]
        exact hnd)]
    rw [List.append_assoc]
    rfl

/-- Claim C9: starting from an empty enabled cache of capacity `n >= 1`,
inserting `n + 1` distinct keys leaves exactly the last `n` of them in
the cache in insertion order: the first-inserted key is evicted (`get`
misses), and every other key remains retrievable with its stamped
payload.  Eviction is by insertion order, not access order. -/
theorem fifo_evicts_first_inserted {R : Type}
    (first : String × CachePayload R × Nat)
    (rest : List (String × CachePayload R × Nat)) (n : Nat)
    (hn : 1 ≤ n) (hlen : rest.length = n)
    (hnd : ((first :: rest).map (·.1)).Nodup) :
    ∃ sF, cacheSetAll { cache := [], maxSize := n, enabled := true }
        (first :: rest) = Except.ok sF ∧
      sF.cache = rest.map stampItem ∧
      cacheGet sF first.1 = none ∧
      ∀ it ∈ rest, cacheGet sF it.1 = some (stampItem it).2 := by
  rcases List.eq_nil_or_concat rest with hre | ⟨front, last, hre⟩
  · rw [hre, List.length_nil] at hlen
    omega
  · rw [List.concat_eq_append] at hre
    subst hre
    have hfrontlen : front.length = n - 1 := by
      rw [List.length_append, List.length_cons, List.length_nil] at hlen
      omega
    have hkeys : ((first :: (front ++ [last])).map (·.1))
        = (first.1 :: front.map (·.1)) ++ [last.1] := by
      simp [List.map_cons, List.map_append]
    rw [hkeys] at hnd
    have hndl : ((first :: front).map (·.1)).Nodup := by
      have := List.Nodup.of_append_left hnd
      simpa [List.map_cons] using this
    have hmid : cacheSetAll { cache := [], maxSize := n, enabled := true }
        (first :: front)
        = Except.ok
          { cache := (first :: front).map stampItem,
            maxSize := n, enabled := true } := by
      refine cacheSetAll_under_capacity (first :: front)
        { cache := [], maxSize := n, enabled := true } rfl ?_ ?_
      · simp only [List.length_nil, List.length_cons, Nat.zero_add, hfrontlen]
        omega
      · simpa [List.map_cons] using hndl
    have hsplit : (first :: (front ++ [last])) = (first :: front) ++ [last] := by
      rw [List.cons_append]
    rw [hsplit, cacheSetAll_append, hmid]
    have hlastfresh : last.1 ∉ (front.map stampItem).map (·.1) := by
      rw [stamp_keys]
      intro hmem
      have hml : last.1 ∈ (first.1 :: front.map (·.1)) :=
        List.mem_cons_of_mem _ hmem
      rw [List.nodup_append] at hnd
      exact hnd.2.2 hml (List.mem_cons_self _ _)
    have hfinal : cacheSet
          { cache := (first :: front).map stampItem,
            maxSize := n, enabled := true } last.1 last.2.1 last.2.2
        = Except.ok
          { cache := front.map stampItem ++ [stampItem last],
            maxSize := n, enabled := true } := by
      rw [cacheSet]
      have hfull : n ≤ ((first :: front).map stampItem).length := by
        simp only [List.length_map, List.length_cons, hfrontlen]
        omega
      rw [if_pos rfl, if_pos hfull]
      dsimp only [List.map_cons, List.tail?]
      rw [dictAssign_fresh _ _ _ hlastfresh]
      rfl
    have hnd2 : (first.1 :: (front.map (·.1) ++ [last.1])).Nodup := by
      rw [← List.cons_append]
      exact hnd
    have hcachekeys : ((front.map stampItem ++ [stampItem last]).map (·.1))
        = front.map (·.1) ++ [last.1] := by
      have hsing : [stampItem last] = List.map stampItem [last] := rfl
      rw [hsing, ← List.map_append, stamp_keys, List.map_append]
      rfl
    refine ⟨{ cache := front.map stampItem ++ [stampItem last],
              maxSize := n, enabled := true }, ?_, ?_, ?_, ?_⟩
    · show cacheSetAll _ [last] = _
      rw [cacheSetAll, List.foldlM_cons, hfinal]
      rfl
    · rw [List.map_append]
      rfl
    · have hf1 : first.1 ∉ front.map (·.1) ++ [last.1] :=
        (List.nodup_cons.mp hnd2).1
      have hf2 : first.1 ∉ (front.map stampItem ++ [stampItem last]).map (·.1) := by
        rw [hcachekeys]
        exact hf1
      rw [cacheGet, if_pos rfl, find_none_of_not_mem_keys _ _ hf2]
      rfl
    · intro it hit
      have hnodupkeys : ((front.map stampItem ++ [stampItem last]).map (·.1)).Nodup := by
        rw [hcachekeys]
        exact (List.nodup_cons.mp hnd2).2
      have hmem : (it.1, (stampItem it).2)
          ∈ front.map stampItem ++ [stampItem last] := by
        have hm := List.mem_map_of_mem stampItem hit
        rw [List.map_append] at hm
        exact hm
      rw [cacheGet, if_pos rfl, find_mem_nodup _ _ _ hnodupkeys hmem]
      rfl

/-- A concrete payload for cache scenarios. -/
def demoPayload : CachePayload Unit :=
  { cached := false, cachedAt := none, rest := () }

/-- Witness for C9 at a concrete input: capacity 2, three distinct keys
`a`, `b`, `c`; `a` is evicted, `b` and `c` survive. -/
theorem fifo_evicts_first_inserted_witness :
    ∃ sF, cacheSetAll { cache := [], maxSize := 2, enabled := true }
        [("a", demoPayload, 0), ("b", demoPayload, 1), ("c", demoPayload, 2)]
        = Except.ok sF ∧
      sF.cache = [("b", demoPayload, 1), ("c", demoPayload, 2)].map stampItem ∧
      cacheGet sF "a" = none ∧
      ∀ it ∈ [("b", demoPayload, 1), ("c", demoPayload, 2)],
        cacheGet sF it.1 = some (stampItem it).2 :=
  fifo_evicts_first_inserted ("a", demoPayload, 0)
    [("b", demoPayload, 1), ("c", demoPayload, 2)] 2 (by decide) rfl (by decide)

/-- Claim C10: `set` on an enabled cache that already holds `max_size`
entries evicts the oldest entry even when the written key is already
present (so the write would not have grown the cache), because the
capacity check precedes any key-membership check; when the written key is
not itself the oldest entry, the unrelated oldest entry disappears and
the cache is left holding `max_size - 1` entries, with the written key
mapped to the freshly stamped payload. -/
theorem set_at_capacity_with_existing_key :
    ∀ (R : Type) (s : ModelCacheService R) (key : String)
      (data : CachePayload R) (now : Nat) (e0 : String × CachePayload R)
      (tl : List (String × CachePayload R)),
      s.cache = e0 :: tl → s.enabled = true → s.cache.length = s.maxSize →
      (s.cache.map (·.1)).Nodup → key ∈ tl.map (·.1) →
      ∃ s2, cacheSet s key data now = Except.ok s2 ∧
        s2.cache.length = s.maxSize - 1 ∧
        e0.1 ∉ s2.cache.map (·.1) ∧
        cacheGet s2 key = some { data with cachedAt := some now } := by
  intro R s key data now e0 tl hc henb hlen hnd hkey
  have hfull : s.maxSize ≤ s.cache.length := le_of_eq hlen.symm
  have hnd0 : e0.1 ∉ tl.map (·.1) := by
    rw [hc, List.map_cons, List.nodup_cons] at hnd
    exact hnd.1
  have hset : cacheSet s key data now
      = Except.ok
        { s with cache := tl.map (fun e =>
            if e.1 == key then (key, { data with cachedAt := some now }) else e) } := by
    rw [cacheSet, henb, if_pos rfl, if_pos hfull, hc]
    dsimp only [List.tail?]
    rw [dictAssign_present _ _ _ hkey]
  refine ⟨_, hset, ?_, ?_, ?_⟩
  · show (tl.map _).length = s.maxSize - 1
    rw [List.length_map]
    rw [hc, List.length_cons] at hlen
    omega
  · intro hmem
    show False
    obtain ⟨e2, hmem2, he2⟩ := List.mem_map.mp hmem
    obtain ⟨e, hmem3, he3⟩ := List.mem_map.mp hmem2
    cases hkb : (e.1 == key) with
    | true =>
      rw [hkb] at he3
      simp only [if_true] at he3
      rw [← he3] at he2
      exact hnd0 (he2 ▸ hkey)
    | false =>
      rw [hkb] at he3
      simp only [Bool.false_eq_true, if_false] at he3
      rw [← he3] at he2
      exact hnd0 (he2 ▸ List.mem_map.mpr ⟨e, hmem3, rfl⟩)
  · show cacheGet _ key = _
    rw [cacheGet]
    simp only [henb, if_true]
    rw [find_map_replace_eq]
    have hsome : (tl.find? (fun e => e.1 == key)).isSome := by
      obtain ⟨e, hmem, he⟩ := List.mem_map.mp hkey
      exact List.find?_isSome.mpr ⟨e, hmem, beq_iff_eq.mpr he⟩
    cases hfind : tl.find? (fun e => e.1 == key) with
    | none => rw [hfind] at hsome; exact absurd hsome (by simp)
    | some e => rfl

/-- A full enabled cache of capacity 2 holding keys `a` (oldest) and `b`. -/
def demoFullCache : ModelCacheService Unit :=
  { cache := [("a", demoPayload), ("b", demoPayload)], maxSize := 2,
    enabled := true }

/-- Witness for C10 at a concrete input: rewriting the already present
key `b` at capacity still evicts the unrelated oldest key `a` and leaves
a single entry. -/
theorem set_at_capacity_with_existing_key_witness :
    ∃ s2, cacheSet demoFullCache "b" demoPayload 7 = Except.ok s2 ∧
      s2.cache.length = demoFullCache.maxSize - 1 ∧
      "a" ∉ s2.cache.map (·.1) ∧
      cacheGet s2 "b" = some { demoPayload with cachedAt := some 7 } :=
  set_at_capacity_with_existing_key Unit demoFullCache "b" demoPayload 7
    ("a", demoPayload) [("b", demoPayload)] rfl rfl rfl (by decide) (by decide)
